import Mathlib

/-!
Shallow embedding of `src/src/icp_rust_boilerplate_backend/src/lib.rs`
(an ICP inventory-store canister) and proofs about its CRUD operations.

Modelling choices:
* `u64` and `u32` values (`id`, `quantity`, timestamps, the id counter) are
  modelled as `Nat`.  The only arithmetic the source performs on them is
  `counter + 1`; a `u64` overflow of the counter is unreachable in any
  finite execution considered here (and under Rust's checked-overflow
  semantics the call would trap before returning an id), so the counter is
  unbounded.
* `f64` `price` is modelled as `Rat`.  The source only ever compares a
  price against `0.0` (`payload.price <= 0.0`), never computes with it, so
  exact rationals are a faithful model of the comparisons involved.
* `ic_cdk::api::time()` is an external input; each mutating operation takes
  the current time `now` as an explicit argument.
* The `StableBTreeMap<u64, InventoryItem, _>` is modelled as an association
  list ordered by strictly increasing key, with `get` / `insert` /
  `remove` / in-order iteration.  The thread-local canister state
  (`ID_COUNTER`, `INVENTORY`) becomes an explicit `ServiceState` record
  threaded through the operations.
* Rust `Result<InventoryItem, Error>` becomes `Except Error InventoryItem`;
  each state-mutating endpoint returns the pair (result, new state).
-/

namespace ICPStore

/-- Mirror of the Rust `InventoryItem` struct (lib.rs lines 13-21). -/
structure InventoryItem where
  id : Nat
  name : String
  quantity : Nat
  price : Rat
  created_at : Nat
  updated_at : Option Nat
deriving DecidableEq, Repr

/-- Mirror of the Rust `InventoryPayload` struct (lib.rs lines 56-61). -/
structure InventoryPayload where
  name : String
  quantity : Nat
  price : Rat
deriving DecidableEq, Repr

/-- Mirror of the Rust `Error` enum (lib.rs lines 166-170). -/
inductive Error where
  | NotFound (msg : String)
  | InvalidInput (msg : String)
deriving DecidableEq, Repr

/-- The inventory map: association list from id to item, kept ordered by
strictly increasing key (the model of `StableBTreeMap<u64, InventoryItem>`). -/
abbrev Inventory := List (Nat × InventoryItem)

/-- Point lookup, the model of `StableBTreeMap::get`. -/
def mapGet (m : Inventory) (k : Nat) : Option InventoryItem :=
  match m with
  | [] => none
  | (k', v) :: rest => if k = k' then some v else mapGet rest k

/-- Insert-or-overwrite keeping keys sorted, the model of
`StableBTreeMap::insert`. -/
def mapInsert (m : Inventory) (k : Nat) (v : InventoryItem) : Inventory :=
  match m with
  | [] => [(k, v)]
  | (k', v') :: rest =>
    if k < k' then (k, v) :: (k', v') :: rest
    else if k = k' then (k, v) :: rest
    else (k', v') :: mapInsert rest k v

/-- Removal returning the removed value (if any) together with the new map,
the model of `StableBTreeMap::remove`. -/
def mapRemove (m : Inventory) (k : Nat) : Option InventoryItem × Inventory :=
  match m with
  | [] => (none, [])
  | (k', v) :: rest =>
    if k = k' then (some v, rest)
    else
      let r := mapRemove rest k
      (r.1, (k', v) :: r.2)

/-- The canister's mutable state: the `ID_COUNTER` cell (initialized to 0)
and the `INVENTORY` stable map (lib.rs lines 40-54). -/
structure ServiceState where
  counter : Nat
  inventory : Inventory
deriving DecidableEq, Repr

/-- Fresh canister state: counter 0, empty inventory. -/
def initState : ServiceState := { counter := 0, inventory := [] }

/-- Mirror of `_get_item` (lib.rs lines 172-175). -/
def _get_item (s : ServiceState) (id : Nat) : Option InventoryItem :=
  mapGet s.inventory id

/-- Mirror of `get_item` (lib.rs lines 63-71); a query, it does not touch
the state. -/
def get_item (s : ServiceState) (id : Nat) : Except Error InventoryItem :=
  match _get_item s id with
  | some item => Except.ok item
  | none => Except.error (Error.NotFound s!"An item with id={id} not found")

/-- Mirror of `list_items` (lib.rs lines 73-78): iterate the map in key
order and collect the items. -/
def list_items (s : ServiceState) : List InventoryItem :=
  s.inventory.map (fun p => p.2)

/-- Mirror of `do_insert` (lib.rs lines 150-153): insert the item under
its own `id` field. -/
def do_insert (s : ServiceState) (item : InventoryItem) : ServiceState :=
  { s with inventory := mapInsert s.inventory item.id item }

/-- Mirror of `add_item` (lib.rs lines 80-115).  `now` is the value
`time()` returns during this call.  The id is the value of the
`counter.borrow_mut().set(current_value + 1)` expression: in
ic-stable-structures 0.5.x, `Cell::set` stores the new value and returns
`Ok` of the PREVIOUS value, so the id the call uses is the pre-increment
counter (`current_value`), while the cell is left at `current_value + 1`. -/
def add_item (s : ServiceState) (payload : InventoryPayload) (now : Nat) :
    Except Error InventoryItem × ServiceState :=
  if payload.name.isEmpty then
    (Except.error (Error.InvalidInput "Name must be provided and non-empty"), s)
  else if payload.quantity = 0 then
    (Except.error (Error.InvalidInput "Quantity must be greater than zero"), s)
  else if payload.price ≤ 0 then
    (Except.error (Error.InvalidInput "Price must be greater than zero"), s)
  else
    let current_value := s.counter
    let s1 : ServiceState := { s with counter := current_value + 1 }
    let id := current_value
    let item : InventoryItem :=
      { id := id, name := payload.name, quantity := payload.quantity,
        price := payload.price, created_at := now, updated_at := none }
    (Except.ok item, do_insert s1 item)

/-- Mirror of `update_item` (lib.rs lines 117-148).  `now` is the value
`time()` returns during this call. -/
def update_item (s : ServiceState) (id : Nat) (payload : InventoryPayload)
    (now : Nat) : Except Error InventoryItem × ServiceState :=
  if payload.name.isEmpty then
    (Except.error (Error.InvalidInput "Name must be provided and non-empty"), s)
  else if payload.quantity = 0 then
    (Except.error (Error.InvalidInput "Quantity must be greater than zero"), s)
  else if payload.price ≤ 0 then
    (Except.error (Error.InvalidInput "Price must be greater than zero"), s)
  else
    match mapGet s.inventory id with
    | some item =>
      let item' : InventoryItem :=
        { item with name := payload.name, quantity := payload.quantity,
                    price := payload.price, updated_at := some now }
      (Except.ok item', do_insert s item')
    | none =>
      (Except.error
        (Error.NotFound s!"Couldn't update an item with id={id}. Item not found."),
       s)

/-- Mirror of `delete_item` (lib.rs lines 155-164). -/
def delete_item (s : ServiceState) (id : Nat) :
    Except Error InventoryItem × ServiceState :=
  let r := mapRemove s.inventory id
  match r.1 with
  | some item => (Except.ok item, { s with inventory := r.2 })
  | none =>
    (Except.error
      (Error.NotFound s!"Couldn't delete an item with id={id}. Item not found."),
     { s with inventory := r.2 })

/-- One external call to the service, with the `time()` value the
environment supplies to the mutating calls. -/
inductive Op where
  | addOp (payload : InventoryPayload) (now : Nat)
  | updateOp (id : Nat) (payload : InventoryPayload) (now : Nat)
  | deleteOp (id : Nat)
  | getOp (id : Nat)
  | listOp
deriving DecidableEq, Repr

/-- State transition of a single call (queries do not change the state). -/
def step (s : ServiceState) (op : Op) : ServiceState :=
  match op with
  | Op.addOp p now => (add_item s p now).2
  | Op.updateOp id p now => (update_item s id p now).2
  | Op.deleteOp id => (delete_item s id).2
  | Op.getOp _ => s
  | Op.listOp => s

/-- Run a sequence of calls from a state. -/
def runOps (s : ServiceState) (ops : List Op) : ServiceState :=
  match ops with
  | [] => s
  | op :: rest => runOps (step s op) rest

/-- The ids returned by the successful `add_item` calls of a trace, in
call order. -/
def addedIds (s : ServiceState) (ops : List Op) : List Nat :=
  match ops with
  | [] => []
  | Op.addOp p now :: rest =>
    match add_item s p now with
    | (Except.ok item, s') => item.id :: addedIds s' rest
    | (Except.error _, s') => addedIds s' rest
  | op :: rest => addedIds (step s op) rest

deriving instance DecidableEq for Except

/-! Basic lemmas about the map model. -/

theorem mapGet_mapInsert (m : Inventory) (k : Nat) (v : InventoryItem) (k' : Nat) :
    mapGet (mapInsert m k v) k' = if k' = k then some v else mapGet m k' := by
  induction m with
  | nil => simp [mapInsert, mapGet]
  | cons p rest ih =>
    obtain ⟨a, b⟩ := p
    by_cases hka : k < a
    · simp [mapInsert, if_pos hka, mapGet]
    · by_cases hke : k = a
      · subst hke
        simp only [mapInsert, if_neg hka, if_pos rfl, mapGet]
        by_cases hk'k : k' = k
        · simp [hk'k]
        · simp [hk'k, mapGet]
      · simp only [mapInsert, if_neg hka, if_neg hke, mapGet, ih]
        by_cases hk'a : k' = a
        · subst hk'a
          simp [Ne.symm hke]
        · simp [hk'a]

theorem mem_mapInsert (m : Inventory) (k : Nat) (v : InventoryItem) (q : Nat × InventoryItem)
    (h : q ∈ mapInsert m k v) : q = (k, v) ∨ q ∈ m := by
  induction m with
  | nil => simpa [mapInsert] using h
  | cons p rest ih =>
    obtain ⟨a, b⟩ := p
    by_cases hka : k < a
    · simp only [mapInsert, if_pos hka, List.mem_cons] at h
      rcases h with h | h | h
      · exact Or.inl h
      · exact Or.inr (by simp [h])
      · exact Or.inr (by simp [h])
    · by_cases hke : k = a
      · simp only [mapInsert, if_neg hka, if_pos hke, List.mem_cons] at h
        rcases h with h | h
        · exact Or.inl h
        · exact Or.inr (by simp [h])
      · simp only [mapInsert, if_neg hka, if_neg hke, List.mem_cons] at h
        rcases h with h | h
        · exact Or.inr (by simp [h])
        · rcases ih h with h' | h'
          · exact Or.inl h'
          · exact Or.inr (by simp [h'])

theorem pairwise_mapInsert (m : Inventory) (k : Nat) (v : InventoryItem)
    (h : List.Pairwise (fun q r => q.1 < r.1) m) :
    List.Pairwise (fun q r => q.1 < r.1) (mapInsert m k v) := by
  induction m with
  | nil => simp [mapInsert]
  | cons p rest ih =>
    obtain ⟨a, b⟩ := p
    rw [List.pairwise_cons] at h
    obtain ⟨ha, hrest⟩ := h
    by_cases hka : k < a
    · simp only [mapInsert, if_pos hka]
      refine List.Pairwise.cons ?_ (List.Pairwise.cons ha hrest)
      intro q hq
      rcases List.mem_cons.mp hq with h' | h'
      · simp [h', hka]
      · exact lt_trans hka (ha q h')
    · by_cases hke : k = a
      · subst hke
        simp only [mapInsert, if_neg hka, if_pos rfl]
        exact List.Pairwise.cons ha hrest
      · simp only [mapInsert, if_neg hka, if_neg hke]
        refine List.Pairwise.cons ?_ (ih hrest)
        intro q hq
        rcases mem_mapInsert rest k v q hq with h' | h'
        · subst h'
          exact Nat.lt_of_le_of_ne (Nat.le_of_not_lt hka) (Ne.symm hke)
        · exact ha q h'

theorem mapRemove_fst (m : Inventory) (k : Nat) :
    (mapRemove m k).1 = mapGet m k := by
  induction m with
  | nil => simp [mapRemove, mapGet]
  | cons p rest ih =>
    obtain ⟨a, b⟩ := p
    by_cases hka : k = a
    · simp [mapRemove, mapGet, hka]
    · simp [mapRemove, mapGet, hka, ih]

theorem mapRemove_sublist (m : Inventory) (k : Nat) :
    List.Sublist (mapRemove m k).2 m := by
  induction m with
  | nil => simp [mapRemove]
  | cons p rest ih =>
    obtain ⟨a, b⟩ := p
    by_cases hka : k = a
    · simp only [mapRemove, if_pos hka]
      exact List.sublist_cons_self (a, b) rest
    · simp only [mapRemove, if_neg hka]
      exact List.Sublist.cons₂ (a, b) ih

theorem mapRemove_none (m : Inventory) (k : Nat) (h : mapGet m k = none) :
    (mapRemove m k).2 = m := by
  induction m with
  | nil => simp [mapRemove]
  | cons p rest ih =>
    obtain ⟨a, b⟩ := p
    by_cases hka : k = a
    · simp [mapGet, hka] at h
    · simp only [mapGet, if_neg hka] at h
      simp [mapRemove, hka, ih h]

theorem mapGet_mem (m : Inventory) (k : Nat) (v : InventoryItem)
    (h : mapGet m k = some v) : (k, v) ∈ m := by
  induction m with
  | nil => simp [mapGet] at h
  | cons p rest ih =>
    obtain ⟨a, b⟩ := p
    by_cases hka : k = a
    · simp only [mapGet, if_pos hka] at h
      subst hka
      injection h with h'
      subst h'
      exact List.mem_cons_self _ _
    · simp only [mapGet, if_neg hka] at h
      exact List.mem_cons_of_mem _ (ih h)

theorem mem_mapGet (m : Inventory) (k : Nat) (v : InventoryItem)
    (hnd : List.Pairwise (fun q r => q.1 < r.1) m) (h : (k, v) ∈ m) :
    mapGet m k = some v := by
  induction m with
  | nil => simp at h
  | cons p rest ih =>
    obtain ⟨a, b⟩ := p
    rw [List.pairwise_cons] at hnd
    obtain ⟨ha, hrest⟩ := hnd
    rcases List.mem_cons.mp h with h' | h'
    · cases h'
      simp [mapGet]
    · by_cases hka : k = a
      · subst hka
        exact absurd (ha (k, v) h') (by simp)
      · simp [mapGet, hka, ih hrest h']

theorem mapGet_mapRemove (m : Inventory) (k : Nat)
    (hnd : List.Pairwise (fun q r => q.1 < r.1) m) (k' : Nat) :
    mapGet (mapRemove m k).2 k' =
      if k' = k then none else mapGet m k' := by
  induction m with
  | nil => simp [mapRemove, mapGet]
  | cons p rest ih =>
    obtain ⟨a, b⟩ := p
    rw [List.pairwise_cons] at hnd
    obtain ⟨ha, hrest⟩ := hnd
    by_cases hka : k = a
    · subst hka
      simp only [mapRemove, if_pos rfl]
      by_cases hk'k : k' = k
      · subst hk'k
        match hg : mapGet rest k' with
        | none => simp [mapGet, hg]
        | some w =>
          exact absurd (ha (k', w) (mapGet_mem rest k' w hg)) (by simp)
      · simp [mapGet, hk'k]
    · simp only [mapRemove, if_neg hka]
      by_cases hk'a : k' = a
      · subst hk'a
        have hne : k' ≠ k := fun h => hka h.symm
        simp [mapGet, hne]
      · simp only [mapGet, if_neg hk'a]
        exact ih hrest

/-! Characterization of each mutating operation, and the reachable-state
invariant. -/

/-- Invariant of every state the service can reach: the map's keys are
strictly increasing, every stored item's `id` equals its key, and every
key is strictly below the id counter (the counter is the next id to be
allocated). -/
def GoodState (s : ServiceState) : Prop :=
  List.Pairwise (fun q r => q.1 < r.1) s.inventory ∧
  ∀ q ∈ s.inventory, q.2.id = q.1 ∧ q.1 < s.counter

theorem goodState_init : GoodState initState := by
  simp [GoodState, initState]

theorem add_item_spec_cases (s : ServiceState) (p : InventoryPayload) (now : Nat) :
    (∃ msg, add_item s p now = (Except.error (Error.InvalidInput msg), s)) ∨
    ((¬ p.name.isEmpty) ∧ p.quantity ≠ 0 ∧ ¬ p.price ≤ 0 ∧
      add_item s p now =
        (Except.ok
          { id := s.counter, name := p.name, quantity := p.quantity,
            price := p.price, created_at := now, updated_at := none },
         { counter := s.counter + 1,
           inventory := mapInsert s.inventory s.counter
             { id := s.counter, name := p.name, quantity := p.quantity,
               price := p.price, created_at := now, updated_at := none } })) := by
  by_cases h1 : p.name.isEmpty
  · exact Or.inl ⟨"Name must be provided and non-empty", by simp [add_item, h1]⟩
  · by_cases h2 : p.quantity = 0
    · exact Or.inl ⟨"Quantity must be greater than zero", by simp [add_item, h1, h2]⟩
    · by_cases h3 : p.price ≤ 0
      · exact Or.inl ⟨"Price must be greater than zero", by simp [add_item, h1, h2, h3]⟩
      · exact Or.inr ⟨h1, h2, h3, by simp [add_item, h1, h2, h3, do_insert]⟩

theorem update_item_spec_cases (s : ServiceState) (id : Nat) (p : InventoryPayload)
    (now : Nat) :
    (∃ e, update_item s id p now = (Except.error e, s)) ∨
    (∃ item, mapGet s.inventory id = some item ∧
      (¬ p.name.isEmpty) ∧ p.quantity ≠ 0 ∧ ¬ p.price ≤ 0 ∧
      update_item s id p now =
        (Except.ok
          { item with name := p.name, quantity := p.quantity,
                      price := p.price, updated_at := some now },
         { s with
           inventory :=
             mapInsert s.inventory item.id
               ({ item with name := p.name, quantity := p.quantity,
                            price := p.price, updated_at := some now }) })) := by
  by_cases h1 : p.name.isEmpty
  · exact Or.inl ⟨Error.InvalidInput "Name must be provided and non-empty",
      by simp [update_item, h1]⟩
  · by_cases h2 : p.quantity = 0
    · exact Or.inl ⟨Error.InvalidInput "Quantity must be greater than zero",
        by simp [update_item, h1, h2]⟩
    · by_cases h3 : p.price ≤ 0
      · exact Or.inl ⟨Error.InvalidInput "Price must be greater than zero",
          by simp [update_item, h1, h2, h3]⟩
      · match hg : mapGet s.inventory id with
        | none =>
          exact Or.inl
            ⟨Error.NotFound s!"Couldn't update an item with id={id}. Item not found.",
             by simp [update_item, h1, h2, h3, hg]⟩
        | some item =>
          exact Or.inr ⟨item, rfl, h1, h2, h3,
            by simp [update_item, h1, h2, h3, hg, do_insert]⟩

theorem delete_item_spec_cases (s : ServiceState) (id : Nat) :
    (mapGet s.inventory id = none ∧
      ∃ e, delete_item s id = (Except.error e, s)) ∨
    (∃ item, mapGet s.inventory id = some item ∧
      delete_item s id =
        (Except.ok item, { s with inventory := (mapRemove s.inventory id).2 })) := by
  match hg : mapGet s.inventory id with
  | none =>
    refine Or.inl ⟨rfl, ?_⟩
    have h1 : (mapRemove s.inventory id).1 = none := by rw [mapRemove_fst]; exact hg
    have h2 : (mapRemove s.inventory id).2 = s.inventory := mapRemove_none _ _ hg
    exact ⟨Error.NotFound s!"Couldn't delete an item with id={id}. Item not found.",
      by simp [delete_item, h1, h2]⟩
  | some item =>
    refine Or.inr ⟨item, rfl, ?_⟩
    have h1 : (mapRemove s.inventory id).1 = some item := by rw [mapRemove_fst]; exact hg
    simp [delete_item, h1]

theorem add_item_counter (s : ServiceState) (p : InventoryPayload) (now : Nat) :
    (add_item s p now).2.counter = s.counter ∨
    (add_item s p now).2.counter = s.counter + 1 := by
  rcases add_item_spec_cases s p now with ⟨msg, h⟩ | ⟨_, _, _, h⟩
  · rw [h]; exact Or.inl rfl
  · rw [h]; exact Or.inr rfl

theorem update_item_counter (s : ServiceState) (id : Nat) (p : InventoryPayload)
    (now : Nat) : (update_item s id p now).2.counter = s.counter := by
  rcases update_item_spec_cases s id p now with ⟨e, h⟩ | ⟨item, _, _, _, _, h⟩ <;>
    rw [h]

theorem delete_item_counter (s : ServiceState) (id : Nat) :
    (delete_item s id).2.counter = s.counter := by
  rcases delete_item_spec_cases s id with ⟨_, e, h⟩ | ⟨item, _, h⟩ <;> rw [h]

theorem counter_le_step (s : ServiceState) (op : Op) :
    s.counter ≤ (step s op).counter := by
  cases op with
  | addOp p now =>
    rcases add_item_counter s p now with h | h <;> simp [step, h]
  | updateOp id p now => simp [step, update_item_counter]
  | deleteOp id => simp [step, delete_item_counter]
  | getOp id => exact Nat.le_refl _
  | listOp => exact Nat.le_refl _

theorem counter_le_runOps (s : ServiceState) (ops : List Op) :
    s.counter ≤ (runOps s ops).counter := by
  induction ops generalizing s with
  | nil => exact Nat.le_refl _
  | cons op rest ih =>
    exact Nat.le_trans (counter_le_step s op) (ih (step s op))

theorem goodState_step (s : ServiceState) (op : Op) (h : GoodState s) :
    GoodState (step s op) := by
  obtain ⟨hsort, hmem⟩ := h
  cases op with
  | addOp p now =>
    rcases add_item_spec_cases s p now with ⟨msg, heq⟩ | ⟨_, _, _, heq⟩
    · simpa [step, heq] using ⟨hsort, hmem⟩
    · simp only [step, heq]
      constructor
      · exact pairwise_mapInsert _ _ _ hsort
      · intro q hq
        rcases mem_mapInsert _ _ _ q hq with h' | h'
        · subst h'
          exact ⟨rfl, Nat.lt_succ_self _⟩
        · obtain ⟨hid, hle⟩ := hmem q h'
          exact ⟨hid, Nat.lt_succ_of_lt hle⟩
  | updateOp id p now =>
    rcases update_item_spec_cases s id p now with ⟨e, heq⟩ | ⟨item, hg, _, _, _, heq⟩
    · simpa [step, heq] using ⟨hsort, hmem⟩
    · simp only [step, heq]
      obtain ⟨hid, hle⟩ := hmem (id, item) (mapGet_mem _ _ _ hg)
      constructor
      · exact pairwise_mapInsert _ _ _ hsort
      · intro q hq
        rcases mem_mapInsert _ _ _ q hq with h' | h'
        · cases h'
          refine ⟨rfl, ?_⟩
          show item.id < s.counter
          rw [hid]
          exact hle
        · exact hmem q h'
  | deleteOp id =>
    rcases delete_item_spec_cases s id with ⟨_, e, heq⟩ | ⟨item, hg, heq⟩
    · simpa [step, heq] using ⟨hsort, hmem⟩
    · simp only [step, heq]
      have hsub := mapRemove_sublist s.inventory id
      constructor
      · exact hsort.sublist hsub
      · intro q hq
        exact hmem q (hsub.mem hq)
  | getOp id => exact ⟨hsort, hmem⟩
  | listOp => exact ⟨hsort, hmem⟩

theorem goodState_runOps (s : ServiceState) (ops : List Op) (h : GoodState s) :
    GoodState (runOps s ops) := by
  induction ops generalizing s with
  | nil => exact h
  | cons op rest ih => exact ih (step s op) (goodState_step s op h)

theorem runOps_append (s : ServiceState) (xs ys : List Op) :
    runOps s (xs ++ ys) = runOps (runOps s xs) ys := by
  induction xs generalizing s with
  | nil => rfl
  | cons op rest ih => simp [runOps, ih]

theorem addedIds_chain (ops : List Op) (s : ServiceState) :
    List.Chain' (fun a b => a < b) (addedIds s ops) ∧
    ∀ i ∈ addedIds s ops, s.counter ≤ i := by
  induction ops generalizing s with
  | nil => simp [addedIds]
  | cons op rest ih =>
    cases op with
    | addOp p now =>
      rcases add_item_spec_cases s p now with ⟨msg, heq⟩ | ⟨_, _, _, heq⟩
      · simpa only [addedIds, heq] using ih s
      · simp only [addedIds, heq]
        obtain ⟨hchain, hbound⟩ :=
          ih { counter := s.counter + 1,
               inventory := mapInsert s.inventory s.counter
                 { id := s.counter, name := p.name, quantity := p.quantity,
                   price := p.price, created_at := now, updated_at := none } }
        refine ⟨hchain.cons' ?_, ?_⟩
        · intro y hy
          exact Nat.lt_of_succ_le (hbound y (List.mem_of_mem_head? hy))
        · intro i hi
          rcases List.mem_cons.mp hi with h' | h'
          · simp [h']
          · exact Nat.le_of_succ_le (hbound i h')
    | updateOp id p now =>
      obtain ⟨hchain, hbound⟩ := ih (step s (Op.updateOp id p now))
      refine ⟨hchain, fun i hi => Nat.le_trans ?_ (hbound i hi)⟩
      exact counter_le_step s (Op.updateOp id p now)
    | deleteOp id =>
      obtain ⟨hchain, hbound⟩ := ih (step s (Op.deleteOp id))
      refine ⟨hchain, fun i hi => Nat.le_trans ?_ (hbound i hi)⟩
      exact counter_le_step s (Op.deleteOp id)
    | getOp id => exact ih s
    | listOp => exact ih s

/-! Theorems about the claims. -/

/-- C1 as stated is false of the code: `Cell::set` returns the previous
counter value, so the first successful `add_item` on a fresh store returns
an item with id 0, not 1.  Concrete counterexample: the first add of the
Widget payload does not return an item with id 1. -/
theorem add_item_first_id_counterexample :
    ¬ ∃ item s',
        add_item initState ⟨"Widget", 10, mkRat 5 2⟩ 0 = (Except.ok item, s') ∧
        item.id = 1 := by
  intro ⟨item, s', h, hid⟩
  have hcomp : add_item initState ⟨"Widget", 10, mkRat 5 2⟩ 0 =
      (Except.ok ⟨0, "Widget", 10, mkRat 5 2, 0, none⟩,
       ⟨1, [(0, ⟨0, "Widget", 10, mkRat 5 2, 0, none⟩)]⟩) := by decide
  rw [hcomp] at h
  injection h with h1 h2
  injection h1 with h1
  rw [← h1] at hid
  exact absurd hid (by decide)

/-- C1 (amended): a successful `add_item` returns (and persists) the item
whose id is the counter value read at the start of the call (the value
`Cell::set` returns), and persists the counter at that value plus one; on
a fresh store the first `add_item` returns id 0, and after creating id 0
and deleting it the next successful `add_item` returns id 1. -/
theorem add_item_id_eq_precounter :
    (∀ (s : ServiceState) (p : InventoryPayload) (now : Nat)
        (item : InventoryItem) (s' : ServiceState),
      add_item s p now = (Except.ok item, s') →
      item.id = s.counter ∧ s'.counter = s.counter + 1) ∧
    (∃ item s',
      add_item initState ⟨"Widget", 10, mkRat 5 2⟩ 0 = (Except.ok item, s') ∧
      item.id = 0 ∧ item.created_at = 0 ∧ item.updated_at = none) ∧
    (∃ item s',
      add_item (delete_item (add_item initState ⟨"Widget", 10, mkRat 5 2⟩ 0).2 0).2
          ⟨"Gadget", 1, 1⟩ 5 = (Except.ok item, s') ∧
      item.id = 1) := by
  refine ⟨?_, ?_, ?_⟩
  · intro s p now item s' h
    rcases add_item_spec_cases s p now with ⟨msg, heq⟩ | ⟨_, _, _, heq⟩
    · rw [heq] at h
      injection h with h1 h2
      cases h1
    · rw [heq] at h
      injection h with h1 h2
      injection h1 with h1
      subst h1
      subst h2
      exact ⟨rfl, rfl⟩
  · exact ⟨⟨0, "Widget", 10, mkRat 5 2, 0, none⟩,
      ⟨1, [(0, ⟨0, "Widget", 10, mkRat 5 2, 0, none⟩)]⟩, by decide, rfl, rfl, rfl⟩
  · exact ⟨⟨1, "Gadget", 1, 1, 5, none⟩,
      ⟨2, [(1, ⟨1, "Gadget", 1, 1, 5, none⟩)]⟩, by decide, rfl⟩

/-- Witness for C1 (amended): instantiates the universal part at the first
add on a fresh store. -/
theorem add_item_id_eq_precounter_witness :
    (⟨0, "Widget", 10, mkRat 5 2, 0, none⟩ : InventoryItem).id =
        initState.counter ∧
    (⟨1, [(0, ⟨0, "Widget", 10, mkRat 5 2, 0, none⟩)]⟩ : ServiceState).counter =
        initState.counter + 1 :=
  add_item_id_eq_precounter.1 initState ⟨"Widget", 10, mkRat 5 2⟩ 0
    ⟨0, "Widget", 10, mkRat 5 2, 0, none⟩
    ⟨1, [(0, ⟨0, "Widget", 10, mkRat 5 2, 0, none⟩)]⟩ (by decide)

/-- C2: over any sequence of service operations from the fresh store, the
ids returned by successful `add_item` calls are pairwise distinct and
non-decreasing in call order, and an id successfully deleted by
`delete_item` is never returned by a later `add_item`. -/
theorem add_ids_distinct_monotone_no_reuse :
    (∀ ops : List Op,
      List.Pairwise (fun a b => a ≠ b) (addedIds initState ops) ∧
      List.Chain' (fun a b => a ≤ b) (addedIds initState ops)) ∧
    (∀ (xs ys : List Op) (k : Nat) (item : InventoryItem),
      (delete_item (runOps initState xs) k).1 = Except.ok item →
      k ∉ addedIds (delete_item (runOps initState xs) k).2 ys) := by
  constructor
  · intro ops
    obtain ⟨hchain, _⟩ := addedIds_chain ops initState
    constructor
    · exact (List.chain'_iff_pairwise.mp hchain).imp Nat.ne_of_lt
    · exact hchain.imp (fun a b h => Nat.le_of_lt h)
  · intro xs ys k item h
    set s := runOps initState xs with hs
    rcases delete_item_spec_cases s k with ⟨hnone, e, heq⟩ | ⟨item', hsome, heq⟩
    · rw [heq] at h
      cases h
    · have hgood : GoodState s := goodState_runOps _ _ goodState_init
      have hk : k < s.counter :=
        (hgood.2 (k, item') (mapGet_mem _ _ _ hsome)).2
      have hcnt : (delete_item s k).2.counter = s.counter := delete_item_counter s k
      intro hmem
      have hbound := (addedIds_chain ys (delete_item s k).2).2 k hmem
      rw [hcnt] at hbound
      exact Nat.lt_irrefl k (Nat.lt_of_lt_of_le hk hbound)

/-- Witness for C2: after adding an item (id 0) and deleting id 0, a later
successful add returns id 1, so id 0 is not among the later added ids. -/
theorem add_ids_distinct_monotone_no_reuse_witness :
    0 ∉ addedIds
        (delete_item
          (runOps initState [Op.addOp ⟨"Widget", 10, mkRat 5 2⟩ 0]) 0).2
        [Op.addOp ⟨"Gadget", 1, 1⟩ 5] :=
  add_ids_distinct_monotone_no_reuse.2 [Op.addOp ⟨"Widget", 10, mkRat 5 2⟩ 0]
    [Op.addOp ⟨"Gadget", 1, 1⟩ 5] 0 ⟨0, "Widget", 10, mkRat 5 2, 0, none⟩
    (by decide)

/-- C3: on a payload with empty name, zero quantity, or non-positive price,
both `add_item` and `update_item` return `InvalidInput` with the message of
the first violated check (which names the failed field) and leave the whole
state (map and counter) unchanged. -/
theorem validation_blocks_mutation (s : ServiceState) (id : Nat)
    (p : InventoryPayload) (now : Nat)
    (h : p.name.isEmpty ∨ p.quantity = 0 ∨ p.price ≤ 0) :
    ∃ msg : String,
      add_item s p now = (Except.error (Error.InvalidInput msg), s) ∧
      update_item s id p now = (Except.error (Error.InvalidInput msg), s) ∧
      ((p.name.isEmpty ∧ msg = "Name must be provided and non-empty") ∨
       ((¬ p.name.isEmpty) ∧ p.quantity = 0 ∧
         msg = "Quantity must be greater than zero") ∨
       ((¬ p.name.isEmpty) ∧ p.quantity ≠ 0 ∧ p.price ≤ 0 ∧
         msg = "Price must be greater than zero")) := by
  by_cases h1 : p.name.isEmpty
  · exact ⟨"Name must be provided and non-empty",
      by simp [add_item, h1], by simp [update_item, h1], Or.inl ⟨h1, rfl⟩⟩
  · by_cases h2 : p.quantity = 0
    · exact ⟨"Quantity must be greater than zero",
        by simp [add_item, h1, h2], by simp [update_item, h1, h2],
        Or.inr (Or.inl ⟨h1, h2, rfl⟩)⟩
    · have h3 : p.price ≤ 0 := by
        rcases h with h | h | h
        · exact absurd h h1
        · exact absurd h h2
        · exact h
      exact ⟨"Price must be greater than zero",
        by simp [add_item, h1, h2, h3], by simp [update_item, h1, h2, h3],
        Or.inr (Or.inr ⟨h1, h2, h3, rfl⟩)⟩

/-- Witness for C3: an empty-name payload is rejected by both mutations on
the fresh store, which stays unchanged. -/
theorem validation_blocks_mutation_witness :
    ∃ msg : String,
      add_item initState ⟨"", 1, 1⟩ 0 =
        (Except.error (Error.InvalidInput msg), initState) ∧
      update_item initState 1 ⟨"", 1, 1⟩ 0 =
        (Except.error (Error.InvalidInput msg), initState) ∧
      ((("" : String).isEmpty ∧ msg = "Name must be provided and non-empty") ∨
       ((¬ ("" : String).isEmpty) ∧ (1 : Nat) = 0 ∧
         msg = "Quantity must be greater than zero") ∨
       ((¬ ("" : String).isEmpty) ∧ (1 : Nat) ≠ 0 ∧ (1 : Rat) ≤ 0 ∧
         msg = "Price must be greater than zero")) :=
  validation_blocks_mutation initState 1 ⟨"", 1, 1⟩ 0 (by decide)

/-- C4: on a reachable store, for an id present in the store and a valid
payload, `update_item` overwrites name, quantity and price with the payload
values, sets `updated_at` to the current time, keeps `id` and `created_at`,
persists the result under the same key, and returns the updated item. -/
theorem update_item_overwrites_preserving_identity (ops : List Op) (id : Nat)
    (p : InventoryPayload) (now : Nat) (item : InventoryItem)
    (hget : mapGet (runOps initState ops).inventory id = some item)
    (h1 : ¬ p.name.isEmpty) (h2 : p.quantity ≠ 0) (h3 : ¬ p.price ≤ 0) :
    update_item (runOps initState ops) id p now =
      (Except.ok
        ({ id := item.id, name := p.name, quantity := p.quantity,
           price := p.price, created_at := item.created_at,
           updated_at := some now }),
       { runOps initState ops with
         inventory :=
           mapInsert (runOps initState ops).inventory id
             ({ id := item.id, name := p.name, quantity := p.quantity,
                price := p.price, created_at := item.created_at,
                updated_at := some now }) }) := by
  have hgood : GoodState (runOps initState ops) :=
    goodState_runOps _ _ goodState_init
  have hid : item.id = id :=
    (hgood.2 (id, item) (mapGet_mem _ _ _ hget)).1
  simp only [update_item, h1, h2, h3, if_false, hget, do_insert]
  rw [hid]
  rfl

/-- Witness for C4: updating the only item of a one-item store. -/
theorem update_item_overwrites_preserving_identity_witness :
    update_item (runOps initState [Op.addOp ⟨"Widget", 10, mkRat 5 2⟩ 0]) 0
        ⟨"Widget", 5, 3⟩ 7 =
      (Except.ok
        ({ id := 0, name := "Widget", quantity := 5, price := 3,
           created_at := 0, updated_at := some 7 }),
       { runOps initState [Op.addOp ⟨"Widget", 10, mkRat 5 2⟩ 0] with
         inventory :=
           mapInsert (runOps initState [Op.addOp ⟨"Widget", 10, mkRat 5 2⟩ 0]).inventory 0
             ({ id := 0, name := "Widget", quantity := 5, price := 3,
                created_at := 0, updated_at := some 7 }) }) :=
  update_item_overwrites_preserving_identity
    [Op.addOp ⟨"Widget", 10, mkRat 5 2⟩ 0] 0 ⟨"Widget", 5, 3⟩ 7
    ⟨0, "Widget", 10, mkRat 5 2, 0, none⟩ (by decide) (by decide) (by decide)
    (by decide)

/-- C6: `delete_item` on a present id removes exactly that entry and
returns the removed item; on an absent id it returns `NotFound` naming the
id and leaves the store unchanged; in both cases the counter is
untouched.  Stated on states satisfying the reachable-state invariant. -/
theorem delete_item_removes_or_notfound (s : ServiceState) (id : Nat)
    (hgood : GoodState s) :
    (∀ item, mapGet s.inventory id = some item →
      delete_item s id =
        (Except.ok item, { s with inventory := (mapRemove s.inventory id).2 }) ∧
      mapGet (mapRemove s.inventory id).2 id = none ∧
      (∀ k, k ≠ id → mapGet (mapRemove s.inventory id).2 k = mapGet s.inventory k)) ∧
    (mapGet s.inventory id = none →
      delete_item s id =
        (Except.error
          (Error.NotFound s!"Couldn't delete an item with id={id}. Item not found."),
         s)) ∧
    (delete_item s id).2.counter = s.counter := by
  refine ⟨?_, ?_, delete_item_counter s id⟩
  · intro item hget
    have h1 : (mapRemove s.inventory id).1 = some item := by
      rw [mapRemove_fst]; exact hget
    refine ⟨by simp [delete_item, h1], ?_, ?_⟩
    · rw [mapGet_mapRemove s.inventory id hgood.1 id]
      simp
    · intro k hk
      rw [mapGet_mapRemove s.inventory id hgood.1 k]
      simp [hk]
  · intro hget
    have h1 : (mapRemove s.inventory id).1 = none := by
      rw [mapRemove_fst]; exact hget
    have h2 : (mapRemove s.inventory id).2 = s.inventory := mapRemove_none _ _ hget
    simp [delete_item, h1, h2]

/-- Witness for C6: deleting the present id 0 from a one-item store and
deleting the absent id 2 from the empty store. -/
theorem delete_item_removes_or_notfound_witness :
    delete_item (runOps initState [Op.addOp ⟨"Widget", 10, mkRat 5 2⟩ 0]) 0 =
      (Except.ok ⟨0, "Widget", 10, mkRat 5 2, 0, none⟩,
       { runOps initState [Op.addOp ⟨"Widget", 10, mkRat 5 2⟩ 0] with
         inventory :=
           (mapRemove (runOps initState [Op.addOp ⟨"Widget", 10, mkRat 5 2⟩ 0]).inventory 0).2 }) ∧
    delete_item (runOps initState []) 2 =
      (Except.error
        (Error.NotFound "Couldn't delete an item with id=2. Item not found."),
       runOps initState []) :=
  ⟨((delete_item_removes_or_notfound
      (runOps initState [Op.addOp ⟨"Widget", 10, mkRat 5 2⟩ 0]) 0
      (goodState_runOps _ _ goodState_init)).1
      ⟨0, "Widget", 10, mkRat 5 2, 0, none⟩ (by decide)).1,
   (delete_item_removes_or_notfound (runOps initState []) 2
      (goodState_runOps _ _ goodState_init)).2.1 (by decide)⟩

/-- C7: on every reachable store, `list_items` returns exactly the stored
items, in strictly ascending id order (hence each exactly once, with no
filtering), and being a query it does not change the state
(`step` on a list call is the identity). -/
theorem list_items_ordered_complete (ops : List Op) :
    List.Chain' (fun a b => a.id < b.id) (list_items (runOps initState ops)) ∧
    (∀ item, item ∈ list_items (runOps initState ops) ↔
      ∃ k, mapGet (runOps initState ops).inventory k = some item) ∧
    step (runOps initState ops) Op.listOp = runOps initState ops := by
  have hgood : GoodState (runOps initState ops) :=
    goodState_runOps _ _ goodState_init
  obtain ⟨hsort, hmem⟩ := hgood
  refine ⟨?_, ?_, rfl⟩
  · apply List.Pairwise.chain'
    rw [list_items, List.pairwise_map]
    refine hsort.imp_of_mem ?_
    intro a b ha hb hab
    rw [(hmem a ha).1, (hmem b hb).1]
    exact hab
  · intro item
    constructor
    · intro h
      rw [list_items, List.mem_map] at h
      obtain ⟨⟨k, v⟩, hkv, hv⟩ := h
      refine ⟨k, ?_⟩
      rw [mem_mapGet _ _ _ hsort hkv]
      exact congrArg some hv
    · intro ⟨k, hk⟩
      rw [list_items, List.mem_map]
      exact ⟨(k, item), mapGet_mem _ _ _ hk, rfl⟩

/-- Witness for C7: the two-item store obtained by two adds. -/
theorem list_items_ordered_complete_witness :
    List.Chain' (fun a b => a.id < b.id)
      (list_items (runOps initState
        [Op.addOp ⟨"Widget", 10, mkRat 5 2⟩ 0, Op.addOp ⟨"Gadget", 1, 1⟩ 5])) ∧
    ((⟨1, "Gadget", 1, 1, 5, none⟩ : InventoryItem) ∈
        list_items (runOps initState
          [Op.addOp ⟨"Widget", 10, mkRat 5 2⟩ 0, Op.addOp ⟨"Gadget", 1, 1⟩ 5]) ↔
      ∃ k, mapGet (runOps initState
          [Op.addOp ⟨"Widget", 10, mkRat 5 2⟩ 0, Op.addOp ⟨"Gadget", 1, 1⟩ 5]).inventory k =
        some ⟨1, "Gadget", 1, 1, 5, none⟩) :=
  ⟨(list_items_ordered_complete
      [Op.addOp ⟨"Widget", 10, mkRat 5 2⟩ 0, Op.addOp ⟨"Gadget", 1, 1⟩ 5]).1,
   (list_items_ordered_complete
      [Op.addOp ⟨"Widget", 10, mkRat 5 2⟩ 0, Op.addOp ⟨"Gadget", 1, 1⟩ 5]).2.1
      ⟨1, "Gadget", 1, 1, 5, none⟩⟩

/-- C8: `get_item` returns the stored item when the id is present and
`NotFound` naming the id when absent; being a query it does not change the
state (`step` on a get call is the identity). -/
theorem get_item_found_or_notfound (s : ServiceState) (id : Nat) :
    (∀ item, mapGet s.inventory id = some item → get_item s id = Except.ok item) ∧
    (mapGet s.inventory id = none →
      get_item s id =
        Except.error (Error.NotFound s!"An item with id={id} not found")) ∧
    step s (Op.getOp id) = s := by
  refine ⟨?_, ?_, rfl⟩
  · intro item hget
    simp [get_item, _get_item, hget]
  · intro hget
    simp [get_item, _get_item, hget]

/-- Witness for C8: looking up the present id 0 and the absent id 2 in a
one-item store. -/
theorem get_item_found_or_notfound_witness :
    get_item (runOps initState [Op.addOp ⟨"Widget", 10, mkRat 5 2⟩ 0]) 0 =
      Except.ok ⟨0, "Widget", 10, mkRat 5 2, 0, none⟩ ∧
    get_item (runOps initState [Op.addOp ⟨"Widget", 10, mkRat 5 2⟩ 0]) 2 =
      Except.error (Error.NotFound "An item with id=2 not found") :=
  ⟨(get_item_found_or_notfound
      (runOps initState [Op.addOp ⟨"Widget", 10, mkRat 5 2⟩ 0]) 0).1
      ⟨0, "Widget", 10, mkRat 5 2, 0, none⟩ (by decide),
   (get_item_found_or_notfound
      (runOps initState [Op.addOp ⟨"Widget", 10, mkRat 5 2⟩ 0]) 2).2.1 (by decide)⟩

/-- C9: starting from the empty store with counter 0, after every sequence
of service calls, every id present as a key in the item map is strictly
less than the current counter value — the id freshly allocated by
`add_item` (the counter itself, since `Cell::set` returns the previous
value) therefore collides with no existing or previously deleted key. -/
theorem inventory_keys_lt_counter (ops : List Op) :
    ∀ q ∈ (runOps initState ops).inventory,
      q.1 < (runOps initState ops).counter := by
  intro q hq
  exact ((goodState_runOps initState ops goodState_init).2 q hq).2

/-- Witness for C9: the key 0 after one add, where the counter is 1. -/
theorem inventory_keys_lt_counter_witness :
    (0, (⟨0, "Widget", 10, mkRat 5 2, 0, none⟩ : InventoryItem)).1 <
      (runOps initState [Op.addOp ⟨"Widget", 10, mkRat 5 2⟩ 0]).counter :=
  inventory_keys_lt_counter [Op.addOp ⟨"Widget", 10, mkRat 5 2⟩ 0]
    (0, ⟨0, "Widget", 10, mkRat 5 2, 0, none⟩) (by decide)

/-- C10: on every reachable store, `update_item` never changes the id
counter or the set of present keys: every key is present after the call
exactly when it was present before, and on any error the state is exactly
the input state. -/
theorem update_item_preserves_key_set (ops : List Op) (id : Nat)
    (p : InventoryPayload) (now : Nat) :
    (update_item (runOps initState ops) id p now).2.counter =
        (runOps initState ops).counter ∧
    (∀ k, (mapGet (update_item (runOps initState ops) id p now).2.inventory k).isSome =
        (mapGet (runOps initState ops).inventory k).isSome) ∧
    (∀ e, (update_item (runOps initState ops) id p now).1 = Except.error e →
      (update_item (runOps initState ops) id p now).2 = runOps initState ops) := by
  set s := runOps initState ops with hs
  have hgood : GoodState s := goodState_runOps _ _ goodState_init
  refine ⟨update_item_counter s id p now, ?_, ?_⟩
  · intro k
    rcases update_item_spec_cases s id p now with ⟨e, heq⟩ | ⟨item, hget, _, _, _, heq⟩
    · rw [heq]
    · rw [heq]
      have hid : item.id = id := (hgood.2 (id, item) (mapGet_mem _ _ _ hget)).1
      simp only [hid, mapGet_mapInsert]
      by_cases hk : k = id
      · subst hk
        simp [hget]
      · simp [hk]
  · intro e he
    rcases update_item_spec_cases s id p now with ⟨e', heq⟩ | ⟨item, hget, _, _, _, heq⟩
    · rw [heq]
    · rw [heq] at he
      cases he

/-- Witness for C10: the error conjunct instantiated with an invalid
payload on the fresh store. -/
theorem update_item_preserves_key_set_witness :
    (update_item (runOps initState []) 1 ⟨"", 1, 1⟩ 0).2 = runOps initState [] :=
  (update_item_preserves_key_set [] 1 ⟨"", 1, 1⟩ 0).2.2
    (Error.InvalidInput "Name must be provided and non-empty") (by decide)

/-! Serialization (`impl Storable for InventoryItem`, lib.rs lines 24-32).

Modelled from the spec: the `Encode!`/`Decode!` pair the source delegates
to is the external candid library, whose code is not part of this
repository.  The spec's serialization contract — each record is encoded to
a byte sequence and decoded back losslessly, field by field — is modelled
by an explicit executable encoding: naturals in LEB128-style base-128
bytes, integers with a sign byte, text as a length-prefixed sequence of
code points, rationals as numerator and denominator, options with a tag
byte, and the record as the concatenation of its fields in declaration
order.  `from_bytes` returns `Option` to model the `.unwrap()` on decode
failure. -/

/-- Encode a natural as base-128 bytes, least significant group first; a
byte below 128 terminates the number. -/
def encodeNat (n : Nat) : List Nat :=
  if n < 128 then [n]
  else (n % 128 + 128) :: encodeNat (n / 128)
decreasing_by exact Nat.div_lt_self (by omega) (by omega)

/-- Decode a base-128 natural, returning the value and the remaining
bytes. -/
def decodeNat : List Nat → Option (Nat × List Nat)
  | [] => none
  | b :: rest =>
    if b < 128 then some (b, rest)
    else
      match decodeNat rest with
      | some (m, rest') => some (m * 128 + (b - 128), rest')
      | none => none

theorem decodeNat_encodeNat (n : Nat) (rest : List Nat) :
    decodeNat (encodeNat n ++ rest) = some (n, rest) := by
  induction n using Nat.strong_induction_on with
  | _ n ih =>
    rw [encodeNat]
    by_cases h : n < 128
    · simp [h, decodeNat]
    · have hrec := ih (n / 128) (Nat.div_lt_self (by omega) (by omega))
      have hb : ¬ (n % 128 + 128 < 128) := by omega
      simp only [if_neg h, List.cons_append, decodeNat, if_neg hb, hrec]
      have heq : n / 128 * 128 + (n % 128 + 128 - 128) = n := by omega
      rw [heq]

/-- Encode an integer: a sign byte then the absolute value. -/
def encodeInt (i : Int) : List Nat :=
  (if i < 0 then 1 else 0) :: encodeNat i.natAbs

/-- Decode an integer encoded by `encodeInt`. -/
def decodeInt : List Nat → Option (Int × List Nat)
  | [] => none
  | b :: rest =>
    match decodeNat rest with
    | some (m, rest') =>
      if b = 1 then some (-(m : Int), rest') else some ((m : Int), rest')
    | none => none

theorem decodeInt_encodeInt (i : Int) (rest : List Nat) :
    decodeInt (encodeInt i ++ rest) = some (i, rest) := by
  by_cases h : i < 0
  · have habs : -((i.natAbs : Nat) : Int) = i := by omega
    simp [encodeInt, h, decodeInt, decodeNat_encodeNat, habs, abs_of_neg h]
  · have habs : ((i.natAbs : Nat) : Int) = i := by omega
    simp [encodeInt, h, decodeInt, decodeNat_encodeNat, habs]

/-- Encode a list of characters as their code points. -/
def encodeCharList (cs : List Char) : List Nat :=
  match cs with
  | [] => []
  | c :: cs' => encodeNat c.toNat ++ encodeCharList cs'

/-- Decode `n` characters. -/
def decodeCharList : Nat → List Nat → Option (List Char × List Nat)
  | 0, bs => some ([], bs)
  | Nat.succ n, bs =>
    match decodeNat bs with
    | some (m, rest) =>
      match decodeCharList n rest with
      | some (cs, rest') => some (Char.ofNat m :: cs, rest')
      | none => none
    | none => none

theorem decodeCharList_encodeCharList (cs : List Char) (rest : List Nat) :
    decodeCharList cs.length (encodeCharList cs ++ rest) = some (cs, rest) := by
  induction cs with
  | nil => simp [encodeCharList, decodeCharList]
  | cons c cs' ih =>
    simp [encodeCharList, decodeCharList, decodeNat_encodeNat, ih]

/-- Encode text: length, then the code points. -/
def encodeString (s : String) : List Nat :=
  encodeNat s.data.length ++ encodeCharList s.data

/-- Decode text encoded by `encodeString`. -/
def decodeString (bs : List Nat) : Option (String × List Nat) :=
  match decodeNat bs with
  | some (n, rest) =>
    match decodeCharList n rest with
    | some (cs, rest') => some (String.mk cs, rest')
    | none => none
  | none => none

theorem decodeString_encodeString (s : String) (rest : List Nat) :
    decodeString (encodeString s ++ rest) = some (s, rest) := by
  obtain ⟨cs⟩ := s
  simp [encodeString, decodeString, decodeNat_encodeNat,
    decodeCharList_encodeCharList]

/-- Encode an optional timestamp: tag byte 0 for absent, 1 then the value
for present. -/
def encodeOptionNat (o : Option Nat) : List Nat :=
  match o with
  | none => [0]
  | some t => 1 :: encodeNat t

/-- Decode an optional timestamp encoded by `encodeOptionNat`. -/
def decodeOptionNat : List Nat → Option (Option Nat × List Nat)
  | [] => none
  | b :: rest =>
    if b = 0 then some (none, rest)
    else
      match decodeNat rest with
      | some (t, rest') => some (some t, rest')
      | none => none

theorem decodeOptionNat_encodeOptionNat (o : Option Nat) (rest : List Nat) :
    decodeOptionNat (encodeOptionNat o ++ rest) = some (o, rest) := by
  cases o with
  | none => simp [encodeOptionNat, decodeOptionNat]
  | some t =>
    have h1 : (1 : Nat) ≠ 0 := by omega
    simp [encodeOptionNat, decodeOptionNat, h1, decodeNat_encodeNat]

/-- Encode a rational: numerator then denominator. -/
def encodeRat (q : Rat) : List Nat :=
  encodeInt q.num ++ encodeNat q.den

/-- Decode a rational encoded by `encodeRat`. -/
def decodeRat (bs : List Nat) : Option (Rat × List Nat) :=
  match decodeInt bs with
  | some (n, rest) =>
    match decodeNat rest with
    | some (d, rest') => some (mkRat n d, rest')
    | none => none
  | none => none

theorem decodeRat_encodeRat (q : Rat) (rest : List Nat) :
    decodeRat (encodeRat q ++ rest) = some (q, rest) := by
  simp [encodeRat, decodeRat, decodeInt_encodeInt, decodeNat_encodeNat,
    Rat.mkRat_self]

/-- Model of `InventoryItem::to_bytes`: the fields serialized in
declaration order. -/
def to_bytes (x : InventoryItem) : List Nat :=
  encodeNat x.id ++ encodeString x.name ++ encodeNat x.quantity ++
    encodeRat x.price ++ encodeNat x.created_at ++ encodeOptionNat x.updated_at

/-- Model of `InventoryItem::from_bytes`: decode the fields in order;
`none` models the panicking `.unwrap()` on malformed bytes. -/
def from_bytes (bs : List Nat) : Option InventoryItem :=
  match decodeNat bs with
  | some (id, r1) =>
    match decodeString r1 with
    | some (name, r2) =>
      match decodeNat r2 with
      | some (quantity, r3) =>
        match decodeRat r3 with
        | some (price, r4) =>
          match decodeNat r4 with
          | some (created_at, r5) =>
            match decodeOptionNat r5 with
            | some (updated_at, _) =>
              some { id := id, name := name, quantity := quantity,
                     price := price, created_at := created_at,
                     updated_at := updated_at }
            | none => none
          | none => none
        | none => none
      | none => none
    | none => none
  | none => none

/-- C5: decoding the encoded byte form of any item reproduces the item
exactly, in every field. -/
theorem from_bytes_to_bytes (x : InventoryItem) :
    from_bytes (to_bytes x) = some x := by
  obtain ⟨id, name, quantity, price, created_at, updated_at⟩ := x
  simp only [to_bytes, List.append_assoc, from_bytes, decodeNat_encodeNat,
    decodeString_encodeString, decodeRat_encodeRat]
  rw [show encodeOptionNat updated_at =
        encodeOptionNat updated_at ++ [] from (List.append_nil _).symm,
    decodeOptionNat_encodeOptionNat]

end ICPStore
